import Mathlib

/-!
Verification of the cleaning/transform pipeline of `data_sweeper.py`.

The program is a linear script over an in-memory tabular dataset (a pandas
DataFrame).  We embed the dataset as a header of column names plus a list of
rows, where a cell is a rational number, a string, or the missing marker
(pandas `NaN`).  Each pipeline operation of the script is translated into a
Lean function below; the doc comment of each definition points at the source
lines it embeds.
-/

namespace DataSweeper

/-- A cell of the dataset: numeric value, text value, or the missing marker
(`NaN` in the source's dataframe library).  Floating point numbers are
modelled as rationals. -/
inductive Cell where
  | num (q : ℚ)
  | str (s : String)
  | missing
deriving DecidableEq

/-- A row is the list of its cells, one per column. -/
abbrev Row := List Cell

/-- The in-memory tabular dataset: ordered column names plus ordered rows
(`df` in the source). -/
structure Dataset where
  names : List String
  rows : List Row
deriving DecidableEq

/-- The cell of row `r` in column position `j` (missing when out of range). -/
def cellAt (r : Row) (j : ℕ) : Cell := r.getD j Cell.missing

/-- Keep the first occurrence of each element: scan left to right holding the
set of elements already emitted, skipping any element seen before.  Embeds
`df.drop_duplicates()` (source line 45), which scans rows in order against a
set of already-seen rows; rows are compared by full equality across all
columns (`DecidableEq Row`), and pandas treats `NaN` as equal to `NaN` for
duplicate detection, as does `Cell.missing` here. -/
def dropDupSeen {α : Type} [DecidableEq α] (seen : List α) : List α → List α
  | [] => []
  | x :: xs => if x ∈ seen then dropDupSeen seen xs else x :: dropDupSeen (x :: seen) xs

/-- Keep the first occurrence of each element of `l`, in order. -/
def dedupFirst {α : Type} [DecidableEq α] (l : List α) : List α := dropDupSeen [] l

/-- The Remove Duplicates operation (source line 45): `df = df.drop_duplicates()`. -/
def dropDuplicates (d : Dataset) : Dataset := ⟨d.names, dedupFirst d.rows⟩

theorem mem_dropDupSeen {α : Type} [DecidableEq α] {a : α} :
    ∀ {l : List α} (seen : List α), a ∈ dropDupSeen seen l ↔ a ∈ l ∧ a ∉ seen := by
  intro l
  induction l with
  | nil => intro seen; simp [dropDupSeen]
  | cons x xs ih =>
    intro seen
    by_cases hx : x ∈ seen
    · rw [dropDupSeen, if_pos hx, ih seen]
      constructor
      · rintro ⟨h1, h2⟩; exact ⟨List.mem_cons_of_mem _ h1, h2⟩
      · rintro ⟨h1, h2⟩
        rcases List.mem_cons.mp h1 with rfl | h1
        · exact absurd hx h2
        · exact ⟨h1, h2⟩
    · rw [dropDupSeen, if_neg hx]
      simp only [List.mem_cons, ih (x :: seen)]
      constructor
      · rintro (rfl | ⟨h1, h2⟩)
        · exact ⟨Or.inl rfl, hx⟩
        · exact ⟨Or.inr h1, fun hs => h2 (Or.inr hs)⟩
      · rintro ⟨rfl | h1, h2⟩
        · exact Or.inl rfl
        · by_cases hax : a = x
          · exact Or.inl hax
          · exact Or.inr ⟨h1, fun hs => by
              rcases hs with h | h
              · exact hax h
              · exact h2 h⟩

theorem nodup_dropDupSeen {α : Type} [DecidableEq α] :
    ∀ (l seen : List α), (dropDupSeen seen l).Nodup := by
  intro l
  induction l with
  | nil => intro seen; simp [dropDupSeen]
  | cons x xs ih =>
    intro seen
    by_cases hx : x ∈ seen
    · rw [dropDupSeen, if_pos hx]; exact ih seen
    · rw [dropDupSeen, if_neg hx]
      refine List.nodup_cons.mpr ⟨?_, ih (x :: seen)⟩
      intro hmem
      exact ((mem_dropDupSeen _).mp hmem).2 (List.mem_cons_self _ _)

theorem dropDupSeen_eq_self {α : Type} [DecidableEq α] :
    ∀ {l : List α} {seen : List α}, l.Nodup → (∀ a ∈ l, a ∉ seen) →
      dropDupSeen seen l = l := by
  intro l
  induction l with
  | nil => intro seen _ _; rfl
  | cons x xs ih =>
    intro seen hnd hdisj
    rcases List.nodup_cons.mp hnd with ⟨hx, hxs⟩
    rw [dropDupSeen, if_neg (hdisj x (List.mem_cons_self _ _))]
    congr 1
    refine ih hxs ?_
    intro a ha hmem
    rcases List.mem_cons.mp hmem with rfl | h
    · exact hx ha
    · exact hdisj a (List.mem_cons_of_mem _ ha) h

theorem dedupFirst_eq_self {α : Type} [DecidableEq α] {l : List α}
    (h : l.Nodup) : dedupFirst l = l :=
  dropDupSeen_eq_self h (by simp)

theorem dedupFirst_idem {α : Type} [DecidableEq α] (l : List α) :
    dedupFirst (dedupFirst l) = dedupFirst l :=
  dedupFirst_eq_self (nodup_dropDupSeen l [])

theorem sublist_dropDupSeen {α : Type} [DecidableEq α] :
    ∀ (l seen : List α), (dropDupSeen seen l).Sublist l := by
  intro l
  induction l with
  | nil => intro seen; simp [dropDupSeen]
  | cons x xs ih =>
    intro seen
    by_cases hx : x ∈ seen
    · rw [dropDupSeen, if_pos hx]; exact (ih seen).cons x
    · rw [dropDupSeen, if_neg hx]; exact (ih (x :: seen)).cons₂ x

theorem dropDupSeen_keeps_first {α : Type} [DecidableEq α] :
    ∀ {l l₁ l₂ : List α} {r : α} {seen : List α},
      l = l₁ ++ r :: l₂ → r ∉ l₁ → r ∉ seen →
      ∃ m₁ m₂, dropDupSeen seen l = m₁ ++ r :: m₂ ∧ m₁.Sublist l₁ := by
  intro l
  induction l with
  | nil =>
    intro l₁ l₂ r seen he _ _
    cases l₁ <;> simp_all
  | cons x xs ih =>
    intro l₁ l₂ r seen he hr hs
    cases l₁ with
    | nil =>
      simp only [List.nil_append, List.cons.injEq] at he
      obtain ⟨h1, h2⟩ := he
      refine ⟨[], dropDupSeen (r :: seen) l₂, ?_, List.Sublist.refl []⟩
      rw [h1, h2, dropDupSeen, if_neg hs, List.nil_append]
    | cons y t =>
      simp only [List.cons_append, List.cons.injEq] at he
      rcases he with ⟨rfl, he⟩
      have hrt : r ∉ t := fun h => hr (List.mem_cons_of_mem _ h)
      have hrx : r ≠ x := fun h => hr (h ▸ List.mem_cons_self _ _)
      by_cases hx : x ∈ seen
      · rw [dropDupSeen, if_pos hx]
        obtain ⟨m₁, m₂, heq, hsub⟩ := ih he hrt hs
        exact ⟨m₁, m₂, heq, hsub.cons x⟩
      · rw [dropDupSeen, if_neg hx]
        have hs2 : r ∉ x :: seen := by
          intro h
          rcases List.mem_cons.mp h with h | h
          · exact hrx h
          · exact hs h
        obtain ⟨m₁, m₂, heq, hsub⟩ := ih he hrt hs2
        exact ⟨x :: m₁, m₂, by rw [heq]; rfl, hsub.cons₂ x⟩

/-- C4: For every Dataset `D`, applying Remove Duplicates twice gives the same
result as applying it once: `remove_duplicates(remove_duplicates(D)) ==
remove_duplicates(D)`. -/
theorem claim_C4_dropDuplicates_idempotent (d : Dataset) :
    dropDuplicates (dropDuplicates d) = dropDuplicates d := by
  unfold dropDuplicates
  simp [dedupFirst_idem]

/-- C6: Remove Duplicates compares rows by full equality across all columns,
keeps exactly the first occurrence of each duplicated row in the original row
order (the result is a duplicate-free sublist of the rows containing every
row value, and the kept occurrence of a row first occurring after prefix `l₁`
is preceded only by rows drawn from `l₁`), and returns the Dataset unchanged
when it contains no duplicate rows. -/
theorem claim_C6_dropDuplicates_keeps_first (d : Dataset) :
    (dropDuplicates d).names = d.names ∧
    (dropDuplicates d).rows.Sublist d.rows ∧
    (dropDuplicates d).rows.Nodup ∧
    (∀ r : Row, r ∈ (dropDuplicates d).rows ↔ r ∈ d.rows) ∧
    (∀ (l₁ : List Row) (r : Row) (l₂ : List Row),
      d.rows = l₁ ++ r :: l₂ → r ∉ l₁ →
      ∃ m₁ m₂, (dropDuplicates d).rows = m₁ ++ r :: m₂ ∧ m₁.Sublist l₁) ∧
    (d.rows.Nodup → dropDuplicates d = d) := by
  refine ⟨rfl, sublist_dropDupSeen _ _, nodup_dropDupSeen _ _, ?_, ?_, ?_⟩
  · intro r
    rw [dropDuplicates]
    simp [dedupFirst, mem_dropDupSeen]
  · intro l₁ r l₂ he hr
    exact dropDupSeen_keeps_first he hr (by simp)
  · intro h
    rw [dropDuplicates, dedupFirst_eq_self h]

/-- Witness for C6 at the concrete dataset with rows `[1]`, `[2]`, `[1]` (and
at a duplicate-free dataset for the no-op part). -/
theorem claim_C6_witness :
    ((dropDuplicates ⟨["a"], [[Cell.num 1], [Cell.num 2], [Cell.num 1]]⟩).rows
      = [[Cell.num 1], [Cell.num 2]] ∧
     (∃ m₁ m₂,
       (dropDuplicates ⟨["a"], [[Cell.num 1], [Cell.num 2], [Cell.num 1]]⟩).rows
         = m₁ ++ [Cell.num 2] :: m₂ ∧ m₁.Sublist [[Cell.num 1]])) ∧
    dropDuplicates ⟨["a"], [[Cell.num 1], [Cell.num 2]]⟩
      = ⟨["a"], [[Cell.num 1], [Cell.num 2]]⟩ := by
  refine ⟨⟨by decide, ?_⟩, ?_⟩
  · exact (claim_C6_dropDuplicates_keeps_first
      ⟨["a"], [[Cell.num 1], [Cell.num 2], [Cell.num 1]]⟩).2.2.2.2.1
      [[Cell.num 1]] [Cell.num 2] [[Cell.num 1]] (by decide) (by decide)
  · exact (claim_C6_dropDuplicates_keeps_first
      ⟨["a"], [[Cell.num 1], [Cell.num 2]]⟩).2.2.2.2.2 (by decide)

/-- The five options of the Handle Missing Values radio group
(source lines 48-51). -/
inductive MissingPolicy where
  | doNothing
  | fillMean
  | fillMedian
  | fillZero
  | fillMissingStr
deriving DecidableEq

/-- The numeric values present in a column, skipping missing and text cells
(the dataframe's statistics skip `NaN`). -/
def numericValues (col : List Cell) : List ℚ :=
  col.filterMap (fun c => match c with | .num q => some q | _ => none)

/-- A column is numeric when every present cell is a number: a dataframe
column of numeric dtype (an all-missing column is a float column of `NaN`s). -/
def isNumericColumn (col : List Cell) : Bool :=
  col.all (fun c => match c with | .str _ => false | _ => true)

/-- The cells of column position `j` of the dataset. -/
def columnCells (d : Dataset) (j : ℕ) : List Cell :=
  d.rows.map (fun r => cellAt r j)

/-- Column mean skipping missing values (`df.mean()`, source line 54); `none`
on non-numeric columns (which `fillna(df.mean())` leaves untouched, since the
means series has no entry for them) and on columns with no present value. -/
def columnMean (col : List Cell) : Option ℚ :=
  if isNumericColumn col then
    let vs := numericValues col
    if vs.length = 0 then none else some (vs.sum / vs.length)
  else none

/-- Column median skipping missing values (`df.median()`, source line 56):
middle value of the sorted present values, or the mean of the two middle
values for an even count; `none` in the same cases as `columnMean`. -/
def columnMedian (col : List Cell) : Option ℚ :=
  if isNumericColumn col then
    let vs := List.insertionSort (fun a b => a ≤ b) (numericValues col)
    let k := vs.length
    if k = 0 then none
    else if k % 2 = 1 then some (vs.getD (k / 2) 0)
    else some ((vs.getD (k / 2 - 1) 0 + vs.getD (k / 2) 0) / 2)
  else none

/-- The fill value the policy supplies for column position `j` of dataset `d`;
`none` when a missing cell is left alone (Do Nothing, or mean/median when the
column has no mean/median). -/
def policyFillValue (p : MissingPolicy) (d : Dataset) (j : ℕ) : Option Cell :=
  match p with
  | .doNothing => none
  | .fillMean => (columnMean (columnCells d j)).map Cell.num
  | .fillMedian => (columnMedian (columnCells d j)).map Cell.num
  | .fillZero => some (Cell.num 0)
  | .fillMissingStr => some (Cell.str "Missing")

/-- Replace the missing cells of a row, the cell at column position `j`
getting value `f j` (present cells are never touched, as with `fillna`). -/
def fillRow (f : ℕ → Option Cell) : ℕ → Row → Row
  | _, [] => []
  | j, c :: cs =>
    (if c = Cell.missing then (f j).getD Cell.missing else c) :: fillRow f (j + 1) cs

/-- The Handle Missing Values operation (source lines 53-60): the `if/elif`
chain calling `df.fillna(...)` with the value chosen by the radio option;
`Do Nothing` matches the absent `else` branch.  The fill statistics are those
of the dataset at the moment `fillna` runs. -/
def applyPolicy (p : MissingPolicy) (d : Dataset) : Dataset :=
  match p with
  | .doNothing => d
  | _ => ⟨d.names, d.rows.map (fillRow (policyFillValue p d) 0)⟩

theorem length_fillRow (f : ℕ → Option Cell) :
    ∀ (j : ℕ) (r : Row), (fillRow f j r).length = r.length := by
  intro j r
  induction r generalizing j with
  | nil => rfl
  | cons c cs ih => simp [fillRow, ih]

/-- C5: For every Dataset `D` and Missing-Value Policy `p`, applying `p`
leaves the column names, the row count and every row's cell count unchanged
(hence the same number of rows and of columns as `D`). -/
theorem claim_C5_policy_preserves_shape (p : MissingPolicy) (d : Dataset) :
    (applyPolicy p d).names = d.names ∧
    (applyPolicy p d).rows.length = d.rows.length ∧
    (applyPolicy p d).rows.map List.length = d.rows.map List.length := by
  cases p <;>
    simp [applyPolicy, List.map_map, Function.comp, length_fillRow]

/-- The cleaning section of one script pass (source lines 44-60): Remove
Duplicates, when selected, runs before the Handle Missing Values option. -/
def cleanPass (removeDup : Bool) (p : MissingPolicy) (d : Dataset) : Dataset :=
  applyPolicy p (if removeDup then dropDuplicates d else d)

/-- C7: in one pass Remove Duplicates is applied before the Missing-Value
Policy, and on the dataset with columns `a,b` and rows `(1, missing)`,
`(2,3)`, `(2,3)`, Remove Duplicates followed by Fill with 0 yields the rows
`(1,0)`, `(2,3)`. -/
theorem claim_C7_dedup_then_fill_example :
    cleanPass true MissingPolicy.fillZero
        ⟨["a", "b"], [[Cell.num 1, Cell.missing],
                      [Cell.num 2, Cell.num 3],
                      [Cell.num 2, Cell.num 3]]⟩
      = ⟨["a", "b"], [[Cell.num 1, Cell.num 0],
                      [Cell.num 2, Cell.num 3]]⟩ ∧
    (∀ (b : Bool) (p : MissingPolicy) (d : Dataset),
      cleanPass b p d = applyPolicy p (if b then dropDuplicates d else d)) := by
  exact ⟨by decide, fun _ _ _ => rfl⟩

/-- Apply the interactively-built rename map to one column name: the map is
built with an entry per column (defaulting to the old name); a name without
an entry is kept.  Embeds `df.rename(columns=col_map)` (source lines 72-73),
which renames unconditionally — it has no check that the resulting names stay
unique and raises no error on duplicate targets. -/
def applyRenameMap (m : List (String × String)) (n : String) : String :=
  match m.lookup n with
  | some n2 => n2
  | none => n

/-- The Rename Columns operation (source lines 70-74). -/
def renameColumns (m : List (String × String)) (d : Dataset) : Dataset :=
  ⟨d.names.map (applyRenameMap m), d.rows⟩

/-- C1 is false of the code: with Rename Map `{a ↦ b, c ↦ b}` the rename
does not fail and does not leave the dataset unchanged — both columns are
renamed, producing the duplicate column names `b, b`. -/
theorem claim_C1_counterexample :
    renameColumns [("a", "b"), ("c", "b")]
        ⟨["a", "c"], [[Cell.num 1, Cell.num 2]]⟩
      = ⟨["b", "b"], [[Cell.num 1, Cell.num 2]]⟩ ∧
    renameColumns [("a", "b"), ("c", "b")]
        ⟨["a", "c"], [[Cell.num 1, Cell.num 2]]⟩
      ≠ ⟨["a", "c"], [[Cell.num 1, Cell.num 2]]⟩ := by
  decide

theorem two_le_count_map {α β : Type} [DecidableEq α] [DecidableEq β]
    (f : α → β) :
    ∀ (l : List α) (a c : α) (b : β), a ∈ l → c ∈ l → a ≠ c →
      f a = b → f c = b → 2 ≤ (l.map f).count b := by
  intro l
  induction l with
  | nil => intro a c b ha _ _ _ _; simp at ha
  | cons x xs ih =>
    intro a c b ha hc hac hfa hfc
    have hcount : ((x :: xs).map f).count b
        = (xs.map f).count b + if f x == b then 1 else 0 := by
      simp [List.count_cons]
    rcases List.mem_cons.mp ha with h1 | h1
    · rcases List.mem_cons.mp hc with h2 | h2
      · exact absurd (h1.trans h2.symm) hac
      · have hpos : 0 < (xs.map f).count b :=
          List.count_pos_iff.mpr (List.mem_map.mpr ⟨c, h2, hfc⟩)
        have hx : (f x == b) = true := by rw [← h1, hfa, beq_self_eq_true]
        rw [hcount, if_pos hx]
        omega
    · rcases List.mem_cons.mp hc with h2 | h2
      · have hpos : 0 < (xs.map f).count b :=
          List.count_pos_iff.mpr (List.mem_map.mpr ⟨a, h1, hfa⟩)
        have hx : (f x == b) = true := by rw [← h2, hfc, beq_self_eq_true]
        rw [hcount, if_pos hx]
        omega
      · have h3 := ih a c b h1 h2 hac hfa hfc
        rw [hcount]
        omega

/-- C1 amended: Rename Columns applies the Rename Map with no duplicate-target
check — when two distinct existing columns map to the same new name, the map
is applied anyway and the new name occurs at least twice among the resulting
column names, which are therefore no longer distinct; no error is raised and
the dataset is changed. -/
theorem claim_C1_rename_duplicate_targets (d : Dataset)
    (m : List (String × String)) (a c b : String)
    (ha : a ∈ d.names) (hc : c ∈ d.names) (hac : a ≠ c)
    (hma : applyRenameMap m a = b) (hmc : applyRenameMap m c = b) :
    2 ≤ (renameColumns m d).names.count b ∧
    ¬ (renameColumns m d).names.Nodup := by
  have h2 : 2 ≤ (renameColumns m d).names.count b :=
    two_le_count_map (applyRenameMap m) d.names a c b ha hc hac hma hmc
  refine ⟨h2, fun hnd => ?_⟩
  have h1 := List.nodup_iff_count_le_one.mp hnd b
  omega

/-- Witness for C1's amended theorem at the dataset with columns `a, c` and
the map `{a ↦ b, c ↦ b}`. -/
theorem claim_C1_witness :
    2 ≤ ((renameColumns [("a", "b"), ("c", "b")] ⟨["a", "c"], []⟩).names.count "b") ∧
    ¬ (renameColumns [("a", "b"), ("c", "b")] ⟨["a", "c"], []⟩).names.Nodup :=
  claim_C1_rename_duplicate_targets ⟨["a", "c"], []⟩ [("a", "b"), ("c", "b")]
    "a" "c" "b" (by decide) (by decide) (by decide) (by decide) (by decide)

/-- The present numeric values of a column in ascending order. -/
def sortedNumericValues (col : List Cell) : List ℚ :=
  List.insertionSort (fun a b => a ≤ b) (numericValues col)

/-- Linear-interpolation quantile `qn/qd` (the source calls it only with the
exact float literals `0.25 = 1/4` and `0.75 = 3/4`, so the quantile is given
here as a numerator/denominator pair with `0 ≤ qn ≤ qd`) of a column, as
`Series.quantile(q)` with the default `interpolation='linear'` (source lines
82-83): missing values are skipped, and on the sorted present values
`x_0 ≤ … ≤ x_(n-1)` the rank `h = (qn/qd)*(n-1)` has integer part `i = ⌊h⌋`
(a natural number since `h ≥ 0`, computed by truncating division) and
fractional part `g = h - i`, giving `x_i + g * (x_(i+1) - x_i)`; `none` when
no value is present (pandas returns `NaN` there). -/
def quantileLinear (col : List Cell) (qn qd : ℕ) : Option ℚ :=
  let xs := sortedNumericValues col
  if xs.length = 0 then none
  else
    let i : ℕ := qn * (xs.length - 1) / qd
    let h : ℚ := (qn : ℚ) * ((xs.length : ℚ) - 1) / (qd : ℚ)
    let lo := xs.getD i 0
    let hi := xs.getD (i + 1) lo
    some (lo + (h - (i : ℚ)) * (hi - lo))

/-- `IQR = Q3 - Q1` (source line 84). -/
def columnIQR (col : List Cell) : Option ℚ :=
  match quantileLinear col 1 4, quantileLinear col 3 4 with
  | some q1, some q3 => some (q3 - q1)
  | _, _ => none

/-- The outlier fence `(Q1 - 1.5*IQR, Q3 + 1.5*IQR)` (source line 85);
`none` when the quartiles are not defined (pandas `NaN`). -/
def outlierFence (col : List Cell) : Option (ℚ × ℚ) :=
  match quantileLinear col 1 4, quantileLinear col 3 4 with
  | some q1, some q3 => some (q1 - 3/2 * (q3 - q1), q3 + 3/2 * (q3 - q1))
  | _, _ => none

/-- The outlier condition of one cell (source line 85): strictly below the
lower fence or strictly above the upper fence.  A missing cell is never an
outlier — in the source both strict comparisons with `NaN` are `False`; the
same holds when the fence itself is `NaN` (`none` here). -/
def isOutlierCell (fence : Option (ℚ × ℚ)) (c : Cell) : Bool :=
  match fence, c with
  | some (lo, hi), Cell.num q => decide (q < lo) || decide (hi < q)
  | _, _ => false

/-- The position of column `c` among the dataset's names (`df[c]`). -/
def colIndex (d : Dataset) (c : String) : Option ℕ :=
  d.names.findIdx? (fun n => n == c)

/-- The per-row outlier flag of `outlier_condition` (source line 85) for the
chosen column. -/
def rowOutlier (d : Dataset) (c : String) (r : Row) : Bool :=
  match colIndex d c with
  | some j => isOutlierCell (outlierFence (columnCells d j)) (cellAt r j)
  | none => false

/-- The Remove Outliers operation (source line 92):
`df = df[~outlier_condition]`. -/
def removeOutliers (d : Dataset) (c : String) : Dataset :=
  ⟨d.names, d.rows.filter (fun r => !(rowOutlier d c r))⟩

/-- C3: the Outlier Detector computes `Q1`/`Q3` as the 25th/75th percentile
with linear interpolation, `IQR = Q3 - Q1`, fence `[Q1 - 1.5*IQR, Q3 + 1.5*IQR]`,
and flags a value iff it is strictly outside the fence; on the column
`[1,2,3,4,5,100]` it computes `Q1 = 2.25`, `Q3 = 4.75`, `IQR = 2.5`, fence
`[-1.5, 8.5]`, and flags `100` and no other row. -/
theorem claim_C3_outlier_quartiles_and_fence :
    quantileLinear [Cell.num 1, Cell.num 2, Cell.num 3,
      Cell.num 4, Cell.num 5, Cell.num 100] 1 4 = some (9/4) ∧
    quantileLinear [Cell.num 1, Cell.num 2, Cell.num 3,
      Cell.num 4, Cell.num 5, Cell.num 100] 3 4 = some (19/4) ∧
    columnIQR [Cell.num 1, Cell.num 2, Cell.num 3,
      Cell.num 4, Cell.num 5, Cell.num 100] = some (5/2) ∧
    outlierFence [Cell.num 1, Cell.num 2, Cell.num 3,
      Cell.num 4, Cell.num 5, Cell.num 100] = some (-(3/2), 17/2) ∧
    ([Cell.num 1, Cell.num 2, Cell.num 3,
      Cell.num 4, Cell.num 5, Cell.num 100].map
        (isOutlierCell (outlierFence [Cell.num 1, Cell.num 2, Cell.num 3,
          Cell.num 4, Cell.num 5, Cell.num 100])))
      = [false, false, false, false, false, true] ∧
    (∀ lo hi q : ℚ, isOutlierCell (some (lo, hi)) (Cell.num q)
      = (decide (q < lo) || decide (hi < q))) := by
  have hsort : sortedNumericValues [Cell.num 1, Cell.num 2, Cell.num 3,
      Cell.num 4, Cell.num 5, Cell.num 100] = [1, 2, 3, 4, 5, 100] := by
    norm_num [sortedNumericValues, numericValues, List.insertionSort,
      List.orderedInsert]
  have h1 : quantileLinear [Cell.num 1, Cell.num 2, Cell.num 3,
      Cell.num 4, Cell.num 5, Cell.num 100] 1 4 = some (9/4) := by
    rw [quantileLinear, hsort]
    norm_num [List.getD]
  have h3 : quantileLinear [Cell.num 1, Cell.num 2, Cell.num 3,
      Cell.num 4, Cell.num 5, Cell.num 100] 3 4 = some (19/4) := by
    rw [quantileLinear, hsort]
    norm_num [List.getD]
  have hfence : outlierFence [Cell.num 1, Cell.num 2, Cell.num 3,
      Cell.num 4, Cell.num 5, Cell.num 100] = some (-(3/2), 17/2) := by
    rw [outlierFence, h1, h3]
    norm_num
  refine ⟨h1, h3, ?_, hfence, ?_, fun lo hi q => rfl⟩
  · rw [columnIQR, h1, h3]
    norm_num
  · rw [List.map_cons, List.map_cons, List.map_cons, List.map_cons,
      List.map_cons, List.map_cons, List.map_nil, hfence]
    norm_num [isOutlierCell]

/-- C9: a row whose value in the chosen outlier column is the missing marker
is never flagged as an outlier, so outlier removal keeps every such row. -/
theorem claim_C9_missing_never_outlier (d : Dataset) (c : String) (r : Row)
    (j : ℕ) (hj : colIndex d c = some j) (hm : cellAt r j = Cell.missing) :
    rowOutlier d c r = false ∧
    (r ∈ d.rows → r ∈ (removeOutliers d c).rows) := by
  have hflag : rowOutlier d c r = false := by
    have hred : rowOutlier d c r
        = isOutlierCell (outlierFence (columnCells d j)) (cellAt r j) := by
      rw [rowOutlier, hj]
    rw [hred, hm]
    cases houtlierFence : outlierFence (columnCells d j) with
    | none => rfl
    | some lohi => cases lohi; rfl
  refine ⟨hflag, fun hr => ?_⟩
  exact List.mem_filter.mpr ⟨hr, by simp [hflag]⟩

/-- Witness for C9 at a dataset whose last row is missing in column `a`. -/
theorem claim_C9_witness :
    rowOutlier ⟨["a"], [[Cell.num 1], [Cell.num 2], [Cell.missing]]⟩ "a"
        [Cell.missing] = false ∧
    ([Cell.missing] ∈
        (⟨["a"], [[Cell.num 1], [Cell.num 2], [Cell.missing]]⟩ : Dataset).rows →
      [Cell.missing] ∈
        (removeOutliers ⟨["a"], [[Cell.num 1], [Cell.num 2], [Cell.missing]]⟩
          "a").rows) :=
  claim_C9_missing_never_outlier
    ⟨["a"], [[Cell.num 1], [Cell.num 2], [Cell.missing]]⟩ "a" [Cell.missing] 0
    (by decide) (by decide)

/-- Modelled from the UI library's `st.selectbox(label, options, index=i)`
(source lines 117, 132, 133): the widget preselects the option at position
`i`, and an out-of-range `index` is an error that fails the script run at
that line — modelled as `none`. -/
def selectboxDefault (options : List String) (i : ℕ) : Option String :=
  options[i]?

/-- The numeric columns offered for visualization
(`df.select_dtypes(include=[np.number]).columns`, source line 114). -/
def numericColumnNames (d : Dataset) : List String :=
  (List.range d.names.length).filterMap (fun j =>
    if isNumericColumn (columnCells d j) then d.names[j]? else none)

/-- The histogram/boxplot column selector (source line 117, default first
option). -/
def plotColumnDefault (d : Dataset) : Option String :=
  selectboxDefault (numericColumnNames d) 0

/-- The scatter-plot X selector (source line 132, `index=0`). -/
def scatterXDefault (d : Dataset) : Option String :=
  selectboxDefault (numericColumnNames d) 0

/-- The scatter-plot Y selector (source line 133, `index=1`). -/
def scatterYDefault (d : Dataset) : Option String :=
  selectboxDefault (numericColumnNames d) 1

/-- C10: the scatter-plot Y selector defaults to the numeric column at index
1, so on a Dataset with exactly one numeric column it fails (index out of
range) while the histogram/boxplot selector and the scatter X selector (both
index 0) still resolve. -/
theorem claim_C10_scatter_y_default_out_of_range (d : Dataset)
    (h : (numericColumnNames d).length = 1) :
    scatterYDefault d = none ∧
    plotColumnDefault d ≠ none ∧
    scatterXDefault d ≠ none := by
  refine ⟨?_, ?_, ?_⟩
  · rw [scatterYDefault, selectboxDefault]
    exact List.getElem?_eq_none (by omega)
  · rw [plotColumnDefault, selectboxDefault]
    simp [List.getElem?_eq_getElem, h]
  · rw [scatterXDefault, selectboxDefault]
    simp [List.getElem?_eq_getElem, h]

/-- Witness for C10 at a dataset with one numeric column `a` and one text
column `t`. -/
theorem claim_C10_witness :
    scatterYDefault ⟨["a", "t"], [[Cell.num 1, Cell.str "x"]]⟩ = none ∧
    plotColumnDefault ⟨["a", "t"], [[Cell.num 1, Cell.str "x"]]⟩ ≠ none ∧
    scatterXDefault ⟨["a", "t"], [[Cell.num 1, Cell.str "x"]]⟩ ≠ none :=
  claim_C10_scatter_y_default_out_of_range
    ⟨["a", "t"], [[Cell.num 1, Cell.str "x"]]⟩ (by decide)

/-- Python's strict comparison `a < b` of two cell values, as the sort uses
it: numbers compare numerically, strings lexicographically by code point,
and comparing a number with a string raises `TypeError`, modelled as `none`.
Missing keys are not compared at all (the sort separates them first); a
comparison that would involve one is also `none`. -/
def cellLt : Cell → Cell → Option Bool
  | Cell.num a, Cell.num b => some (decide (a < b))
  | Cell.str a, Cell.str b => some (decide (a < b))
  | _, _ => none

/-- Is this cell the missing marker? -/
def isMissingCell : Cell → Bool
  | Cell.missing => true
  | _ => false

/-- Strict comparison of two rows by their key cell in column position `j`. -/
def keyLt (j : ℕ) (r s : Row) : Option Bool :=
  cellLt (cellAt r j) (cellAt s j)

/-- Insert `x` into a list sorted ascending by the fallible strict comparison
`lt`: walk past every `y` with `¬ (x < y)` and place `x` before the first `y`
with `x < y`; fail (`none`) as soon as a comparison fails. -/
def insertSortedF {α : Type} (lt : α → α → Option Bool) (x : α) :
    List α → Option (List α)
  | [] => some [x]
  | y :: ys =>
    match lt x y with
    | none => none
    | some true => some (x :: y :: ys)
    | some false => (insertSortedF lt x ys).map (fun zs => y :: zs)

/-- Comparison sort by repeated insertion, failing when a comparison fails. -/
def insertionSortF {α : Type} (lt : α → α → Option Bool) :
    List α → Option (List α)
  | [] => some []
  | x :: xs => (insertionSortF lt xs).bind (insertSortedF lt x)

/-- The Sort operation (source lines 65-68): `df = df.sort_values(by=c)`.
`sort_values` splits off the rows whose key is missing, sorts the remaining
rows by the key cell ascending, and appends the missing-key rows at the end
in their original order (`na_position='last'`).  The comparison sort itself
is modelled by insertion sort; the source uses the library's default
`kind='quicksort'`, which produces the same multiset of rows in ascending
key order but guarantees no particular order of tied rows (it is not a
stable algorithm), and no theorem below depends on the tie order.  A failing
key comparison (Python `TypeError` on a mixed number/text column) fails the
whole operation, as it aborts the script run. -/
def sortValues (d : Dataset) (c : String) : Option Dataset :=
  match colIndex d c with
  | none => none
  | some j =>
    (insertionSortF (keyLt j)
        (d.rows.filter (fun r => !(isMissingCell (cellAt r j))))).map
      (fun sorted =>
        ⟨d.names, sorted ++ d.rows.filter (fun r => isMissingCell (cellAt r j))⟩)

theorem insertSortedF_perm {α : Type} (lt : α → α → Option Bool) (x : α) :
    ∀ {l l2 : List α}, insertSortedF lt x l = some l2 → l2.Perm (x :: l) := by
  intro l
  induction l with
  | nil =>
    intro l2 h
    rw [insertSortedF] at h
    cases h
    exact List.Perm.refl _
  | cons y ys ih =>
    intro l2 h
    rw [insertSortedF] at h
    split at h
    · exact absurd h (by simp)
    · cases h
      exact List.Perm.refl _
    · rcases Option.map_eq_some'.mp h with ⟨zs, hzs, rfl⟩
      exact ((ih hzs).cons y).trans (List.Perm.swap x y ys)

theorem insertionSortF_perm {α : Type} (lt : α → α → Option Bool) :
    ∀ {l l2 : List α}, insertionSortF lt l = some l2 → l2.Perm l := by
  intro l
  induction l with
  | nil =>
    intro l2 h
    rw [insertionSortF] at h
    cases h
    exact List.Perm.refl _
  | cons x xs ih =>
    intro l2 h
    rw [insertionSortF] at h
    rcases Option.bind_eq_some.mp h with ⟨ys, hys, hins⟩
    exact (insertSortedF_perm lt x hins).trans ((ih hys).cons x)

theorem insertSortedF_pairwise {α : Type} (lt : α → α → Option Bool)
    (hasym : ∀ a b, lt a b = some true → lt b a ≠ some true)
    (htrans : ∀ a b z, lt a b = some true → lt z b ≠ some true →
      lt z a ≠ some true) (x : α) :
    ∀ {l l2 : List α},
      l.Pairwise (fun a b => lt b a ≠ some true) →
      insertSortedF lt x l = some l2 →
      l2.Pairwise (fun a b => lt b a ≠ some true) := by
  intro l
  induction l with
  | nil =>
    intro l2 _ h
    rw [insertSortedF] at h
    cases h
    simp
  | cons y ys ih =>
    intro l2 hp h
    rcases List.pairwise_cons.mp hp with ⟨hpy, hys⟩
    rw [insertSortedF] at h
    split at h
    · exact absurd h (by simp)
    · next hlt =>
      cases h
      refine List.pairwise_cons.mpr ⟨?_, hp⟩
      intro a ha
      rcases List.mem_cons.mp ha with rfl | ha
      · exact hasym _ _ hlt
      · exact htrans x y a hlt (hpy a ha)
    · next hlt =>
      rcases Option.map_eq_some'.mp h with ⟨zs, hzs, rfl⟩
      refine List.pairwise_cons.mpr ⟨?_, ih hys hzs⟩
      intro a ha
      have hmem : a ∈ x :: ys := (insertSortedF_perm lt x hzs).mem_iff.mp ha
      rcases List.mem_cons.mp hmem with rfl | ha2
      · rw [hlt]; simp
      · exact hpy a ha2

theorem insertionSortF_pairwise {α : Type} (lt : α → α → Option Bool)
    (hasym : ∀ a b, lt a b = some true → lt b a ≠ some true)
    (htrans : ∀ a b z, lt a b = some true → lt z b ≠ some true →
      lt z a ≠ some true) :
    ∀ {l l2 : List α}, insertionSortF lt l = some l2 →
      l2.Pairwise (fun a b => lt b a ≠ some true) := by
  intro l
  induction l with
  | nil =>
    intro l2 h
    rw [insertionSortF] at h
    cases h
    simp
  | cons x xs ih =>
    intro l2 h
    rw [insertionSortF] at h
    rcases Option.bind_eq_some.mp h with ⟨ys, hys, hins⟩
    exact insertSortedF_pairwise lt hasym htrans x (ih hys) hins

theorem cellLt_asymm (a b : Cell) (h : cellLt a b = some true) :
    cellLt b a ≠ some true := by
  cases a <;> cases b <;> simp [cellLt] at h ⊢
  · exact h.le
  · exact h.le

theorem cellLt_trans_not (a b z : Cell) (hab : cellLt a b = some true)
    (hzb : cellLt z b ≠ some true) : cellLt z a ≠ some true := by
  intro hza
  cases a <;> cases b <;> simp [cellLt] at hab
  · cases z <;> simp [cellLt] at hza
    exact hzb (by simp [cellLt]; exact lt_trans hza hab)
  · cases z <;> simp [cellLt] at hza
    exact hzb (by simp [cellLt]; exact lt_trans hza hab)

theorem cellLt_missing_left (x : Cell) : cellLt Cell.missing x = none := by
  cases x <;> rfl

theorem eq_missing_of_isMissingCell {c : Cell} (h : isMissingCell c = true) :
    c = Cell.missing := by
  cases c with
  | missing => rfl
  | num q => simp [isMissingCell] at h
  | str s => simp [isMissingCell] at h

theorem pairwise_of_forall_right {α : Type} {R : α → α → Prop} :
    ∀ {l : List α}, (∀ b ∈ l, ∀ a, R a b) → l.Pairwise R := by
  intro l
  induction l with
  | nil => intro _; exact List.Pairwise.nil
  | cons x xs ih =>
    intro h
    refine List.pairwise_cons.mpr
      ⟨fun a ha => h a (List.mem_cons_of_mem _ ha) x, ih ?_⟩
    intro b hb a
    exact h b (List.mem_cons_of_mem _ hb) a

/-- C2 is false of the code as stated: it quantifies over every column, but
on a column holding both a number and a text value (the spec's Dataset model
allows mixed columns, and spreadsheet upload produces them) every key
comparison raises `TypeError`, the sort fails, and no Dataset is returned at
all — in particular no permutation of the rows. -/
theorem claim_C2_counterexample :
    sortValues ⟨["c"], [[Cell.num 1], [Cell.str "x"]]⟩ "c" = none := by
  decide

/-- C2 amended: whenever the Sort operation succeeds, it returns a Dataset
with the same column names whose rows are a permutation of the original rows
and are non-decreasing in the chosen column — no later row's key is strictly
below an earlier row's key, with missing keys placed last.  The stability
clause of the claim is dropped: the source calls `sort_values` with the
library default `kind='quicksort'`, which does not guarantee the original
relative order of tied rows. -/
theorem claim_C2_sort_perm_and_nondecreasing (d : Dataset) (c : String)
    (j : ℕ) (d2 : Dataset) (hj : colIndex d c = some j)
    (hs : sortValues d c = some d2) :
    d2.names = d.names ∧
    d2.rows.Perm d.rows ∧
    d2.rows.Pairwise
      (fun r s => cellLt (cellAt s j) (cellAt r j) ≠ some true) := by
  have hred : sortValues d c
      = (insertionSortF (keyLt j)
            (d.rows.filter (fun r => !(isMissingCell (cellAt r j))))).map
          (fun sorted =>
            ⟨d.names,
              sorted ++ d.rows.filter (fun r => isMissingCell (cellAt r j))⟩) := by
    rw [sortValues, hj]
  rw [hred] at hs
  rcases Option.map_eq_some'.mp hs with ⟨sorted, hsort, rfl⟩
  refine ⟨rfl, ?_, ?_⟩
  · have h1 : sorted.Perm
        (d.rows.filter (fun r => !(isMissingCell (cellAt r j)))) :=
      insertionSortF_perm _ hsort
    have h2 := List.filter_append_perm
      (fun r => isMissingCell (cellAt r j)) d.rows
    exact ((h1.append_right _).trans List.perm_append_comm).trans h2
  · rw [List.pairwise_append]
    have hmissKey : ∀ s ∈ d.rows.filter (fun r => isMissingCell (cellAt r j)),
        ∀ r : Row, cellLt (cellAt s j) (cellAt r j) ≠ some true := by
      intro s hsmem r
      have hp := List.of_mem_filter hsmem
      have h3 := eq_missing_of_isMissingCell hp
      rw [h3, cellLt_missing_left]
      simp
    refine ⟨?_, pairwise_of_forall_right hmissKey, ?_⟩
    · exact insertionSortF_pairwise (keyLt j)
        (fun a b h => cellLt_asymm _ _ h)
        (fun a b z hab hzb => cellLt_trans_not _ _ _ hab hzb) hsort
    · intro r _ s hsmem
      exact hmissKey s hsmem r

/-- Witness for C2's amended theorem: sorting `[2, missing, 1]` by column `c`
succeeds and yields `[1, 2, missing]`. -/
theorem claim_C2_witness :
    (⟨["c"], [[Cell.num 1], [Cell.num 2], [Cell.missing]]⟩ : Dataset).names
        = (⟨["c"], [[Cell.num 2], [Cell.missing], [Cell.num 1]]⟩ : Dataset).names ∧
    (⟨["c"], [[Cell.num 1], [Cell.num 2], [Cell.missing]]⟩ : Dataset).rows.Perm
        (⟨["c"], [[Cell.num 2], [Cell.missing], [Cell.num 1]]⟩ : Dataset).rows ∧
    (⟨["c"], [[Cell.num 1], [Cell.num 2], [Cell.missing]]⟩ : Dataset).rows.Pairwise
      (fun r s => cellLt (cellAt s 0) (cellAt r 0) ≠ some true) :=
  claim_C2_sort_perm_and_nondecreasing
    ⟨["c"], [[Cell.num 2], [Cell.missing], [Cell.num 1]]⟩ "c" 0
    ⟨["c"], [[Cell.num 1], [Cell.num 2], [Cell.missing]]⟩
    (by decide) (by decide)

/-- Join tokens with a separator character. -/
def joinSep (sep : Char) : List (List Char) → List Char
  | [] => []
  | [t] => t
  | t :: u :: ts => t ++ sep :: joinSep sep (u :: ts)

/-- Split a character list at every occurrence of the separator character
(the inverse of `joinSep` on separator-free tokens); `splitSep sep [] = [[]]`. -/
def splitSep (sep : Char) : List Char → List (List Char)
  | [] => [[]]
  | c :: cs =>
    match splitSep sep cs with
    | [] => [[c]]
    | t :: ts => if c = sep then [] :: t :: ts else (c :: t) :: ts

/-- One delimited-text record: its fields joined by commas. -/
def csvLine (fields : List (List Char)) : List Char := joinSep ',' fields

/-- Terminate every line with a newline and concatenate. -/
def terminateLines (ls : List (List Char)) : List Char :=
  (ls.map (fun l => l ++ ['\n'])).flatten

/-- Serialize a dataset to delimited text, as `df.to_csv(buffer, index=False)`
(source line 101): one comma-joined record per line, the header of column
names first, every line newline-terminated, and no row-index column.  The
fields are taken here already rendered to text: the format's value rendering
— numbers to decimal text, the missing marker to the empty token — is the
type-coercion boundary the round-trip claim excludes. -/
def csvWrite (names : List (List Char)) (rows : List (List (List Char))) :
    List Char :=
  terminateLines ((names :: rows).map csvLine)

/-- Load delimited text, as `pd.read_csv` (source line 27): split the text
into lines, skip blank lines entirely (`skip_blank_lines=True` is the
default), take the first remaining line as the header of column names, and
split every line at commas; `none` when no line remains (pandas raises
`EmptyDataError`). -/
def csvRead (text : List Char) :
    Option (List (List Char) × List (List (List Char))) :=
  match (splitSep '\n' text).filter (fun l => !l.isEmpty) with
  | [] => none
  | h :: rs => some (splitSep ',' h, rs.map (splitSep ','))

theorem splitSep_ne_nil (sep : Char) : ∀ l : List Char, splitSep sep l ≠ [] := by
  intro l
  induction l with
  | nil => simp [splitSep]
  | cons c cs ih =>
    rw [splitSep]
    cases hs : splitSep sep cs with
    | nil => simp
    | cons t ts =>
      by_cases hc : c = sep
      · simp [hc]
      · simp [hc]

theorem splitSep_of_not_mem (sep : Char) :
    ∀ {t : List Char}, sep ∉ t → splitSep sep t = [t] := by
  intro t
  induction t with
  | nil => intro _; rfl
  | cons c cs ih =>
    intro h
    have hc : c ≠ sep := fun he => h (he ▸ List.mem_cons_self _ _)
    have hcs : sep ∉ cs := fun hm => h (List.mem_cons_of_mem _ hm)
    rw [splitSep, ih hcs]
    simp [hc]

theorem splitSep_append (sep : Char) :
    ∀ {t : List Char} (r : List Char), sep ∉ t →
      splitSep sep (t ++ sep :: r) = t :: splitSep sep r := by
  intro t
  induction t with
  | nil =>
    intro r _
    rw [List.nil_append, splitSep]
    cases hs : splitSep sep r with
    | nil => exact absurd hs (splitSep_ne_nil sep r)
    | cons u us => simp [hs]
  | cons c cs ih =>
    intro r h
    have hc : c ≠ sep := fun he => h (he ▸ List.mem_cons_self _ _)
    have hcs : sep ∉ cs := fun hm => h (List.mem_cons_of_mem _ hm)
    rw [List.cons_append, splitSep, ih r hcs]
    simp [hc]

theorem not_mem_joinSep (sep : Char) (x : Char) :
    ∀ (ts : List (List Char)), (∀ t ∈ ts, x ∉ t) → x ≠ sep →
      x ∉ joinSep sep ts := by
  intro ts
  induction ts with
  | nil => intro _ _; simp [joinSep]
  | cons t ts ih =>
    intro h hx
    cases ts with
    | nil =>
      rw [joinSep]
      exact h t (List.mem_cons_self _ _)
    | cons u us =>
      rw [joinSep]
      intro hmem
      rcases List.mem_append.mp hmem with hm | hm
      · exact h t (List.mem_cons_self _ _) hm
      · rcases List.mem_cons.mp hm with he | hm
        · exact hx he
        · exact ih (fun v hv => h v (List.mem_cons_of_mem _ hv)) hx hm

theorem splitSep_joinSep (sep : Char) :
    ∀ {ts : List (List Char)}, ts ≠ [] → (∀ t ∈ ts, sep ∉ t) →
      splitSep sep (joinSep sep ts) = ts := by
  intro ts
  induction ts with
  | nil => intro h _; exact absurd rfl h
  | cons t us ih =>
    intro _ h
    cases us with
    | nil =>
      rw [joinSep]
      exact splitSep_of_not_mem sep (h t (List.mem_cons_self _ _))
    | cons u vs =>
      rw [joinSep, splitSep_append sep _ (h t (List.mem_cons_self _ _))]
      rw [ih (by simp) (fun v hv => h v (List.mem_cons_of_mem _ hv))]

theorem splitSep_terminateLines :
    ∀ (ls : List (List Char)), (∀ l ∈ ls, ('\n' : Char) ∉ l) →
      splitSep '\n' (terminateLines ls) = ls ++ [[]] := by
  intro ls
  induction ls with
  | nil => intro _; rfl
  | cons l ls ih =>
    intro h
    have hl : ('\n' : Char) ∉ l := h l (List.mem_cons_self _ _)
    have hstep : terminateLines (l :: ls) = l ++ '\n' :: terminateLines ls := by
      rw [terminateLines, List.map_cons, List.flatten_cons, List.append_assoc]
      rfl
    rw [hstep, splitSep_append _ _ hl,
      ih (fun v hv => h v (List.mem_cons_of_mem _ hv))]
    rfl

/-- C8 is false of the code as stated: a single-column dataset with a missing
value serializes that row as a blank line, which the loader skips
(`skip_blank_lines` default), so the row is lost — more than type coercion.
Here the dataset with column `a` and cell tokens `[]` (a missing cell
rendered to text) and `1` reloads with the blank row gone. -/
theorem claim_C8_counterexample :
    csvRead (csvWrite [['a']] [[[]], [['1']]])
      = some ([['a']], [[['1']]]) ∧
    ([[['1']]] : List (List (List Char))) ≠ [[[]], [['1']]] := by
  constructor
  · rfl
  · decide

/-- C8 amended: exporting to delimited text and re-loading restores the
column names and all cell tokens exactly, for every dataset whose rendered
tokens contain no comma and no newline (fields needing the format's quoting
mechanism are out of this model) and in which no record serializes to a
blank line — the header and each row must be nonempty as token lists and
yield a nonempty line, ruling out the counterexample's lost blank row (a
single-column dataset with a missing cell). -/
theorem claim_C8_csv_round_trip (names : List (List Char))
    (rows : List (List (List Char)))
    (hne : names ≠ [])
    (hnames : ∀ t ∈ names, (',' : Char) ∉ t ∧ ('\n' : Char) ∉ t)
    (hrows : ∀ r ∈ rows, r ≠ [] ∧ ∀ t ∈ r, (',' : Char) ∉ t ∧ ('\n' : Char) ∉ t)
    (hhead : csvLine names ≠ [])
    (hlines : ∀ r ∈ rows, csvLine r ≠ []) :
    csvRead (csvWrite names rows) = some (names, rows) := by
  have hnolf : ∀ l ∈ (names :: rows).map csvLine, ('\n' : Char) ∉ l := by
    intro l hl
    rcases List.mem_map.mp hl with ⟨fs, hfs, rfl⟩
    rcases List.mem_cons.mp hfs with rfl | hfs
    · exact not_mem_joinSep _ _ _ (fun t ht => (hnames t ht).2) (by decide)
    · exact not_mem_joinSep _ _ _ (fun t ht => ((hrows fs hfs).2 t ht).2)
        (by decide)
  have hsplit : splitSep '\n' (csvWrite names rows)
      = (names :: rows).map csvLine ++ [[]] :=
    splitSep_terminateLines _ hnolf
  have hfilter : ((names :: rows).map csvLine ++ [[]]).filter
        (fun l => !l.isEmpty)
      = (names :: rows).map csvLine := by
    rw [List.filter_append]
    have h1 : ((names :: rows).map csvLine).filter (fun l => !l.isEmpty)
        = (names :: rows).map csvLine := by
      apply List.filter_eq_self.mpr
      intro l hl
      rcases List.mem_map.mp hl with ⟨fs, hfs, rfl⟩
      rcases List.mem_cons.mp hfs with rfl | hfs
      · simpa [List.isEmpty_iff] using hhead
      · simpa [List.isEmpty_iff] using hlines fs hfs
    rw [h1]
    simp
  rw [csvRead, hsplit, hfilter, List.map_cons]
  have hhd : splitSep ',' (csvLine names) = names :=
    splitSep_joinSep ',' hne (fun t ht => (hnames t ht).1)
  have htl : (rows.map csvLine).map (splitSep ',') = rows := by
    rw [List.map_map]
    have : ∀ r ∈ rows, (splitSep ',' ∘ csvLine) r = id r := by
      intro r hr
      exact splitSep_joinSep ',' (hrows r hr).1
        (fun t ht => ((hrows r hr).2 t ht).1)
    rw [List.map_congr_left this, List.map_id]
  show some (splitSep ',' (csvLine names),
      List.map (splitSep ',') (List.map csvLine rows)) = some (names, rows)
  rw [hhd, htl]

/-- Witness for C8's amended theorem: the single-column dataset with header
`a` and rows `1`, `2` survives the round trip. -/
theorem claim_C8_witness :
    csvRead (csvWrite [['a']] [[['1']], [['2']]])
      = some ([['a']], [[['1']], [['2']]]) :=
  claim_C8_csv_round_trip [['a']] [[['1']], [['2']]]
    (by decide) (by decide) (by decide) (by decide) (by decide)

end DataSweeper
